import Mathlib

/-!
# SpectroTrace synthesis core: a shallow embedding in Lean 4

This file embeds the image-to-audio synthesis core of the SpectroTrace
repository (`src/app/lib/audio/generateFromImage.ts`, the WAV encoder and the
parameter-sanitization module) and proves properties of the embedded code.

Modelling conventions:
* JavaScript numbers used by the algorithms are modelled as exact rationals
  (`ℚ`); machine floating-point rounding is not modelled.  Where a property
  hinges on the rounding of one specific stored value — the
  `samplesPerColumn` double whose floored multiples delimit the per-column
  sample ranges — that stored value is an explicit argument of the
  corresponding definitions (`startSample`/`endSample`), so statements can
  be made both for the exact rational quotient and for the rounded value
  the program actually stores.
* The transcendental operations (`Math.sin`, `Math.sqrt`, `Math.pow`,
  `Math.log`) and the constant `Math.PI` are not rational-valued, so they are
  abstracted into a parameter bundle `RealFuns`; every definition that uses
  them takes the bundle as an argument.
* `Float32Array` buffers are modelled as `List ℚ`; an out-of-bounds write on a
  typed array is a silent no-op in JavaScript, which matches `List.set`.
* Thrown exceptions are modelled with `Except`, and the `onProgress` callback
  by a log of the emitted progress values.
-/

namespace SpectroTrace

/-- Abstract bundle for the transcendental operations of `Math` used by the
source: `sin`, `sqrt`, `pow`, `log` and the constant `PI`. -/
structure RealFuns where
  sinF : ℚ → ℚ
  sqrtF : ℚ → ℚ
  powF : ℚ → ℚ → ℚ
  logF : ℚ → ℚ
  piQ : ℚ

/-- `FrequencyScale` from `src/unnamed/part_010` (string union in TS). -/
inductive FrequencyScale where
  | logarithmic : FrequencyScale
  | linear : FrequencyScale
deriving DecidableEq

/-- `BrightnessCurve` from `src/unnamed/part_010` (string union in TS). -/
inductive BrightnessCurve where
  | linear : BrightnessCurve
  | exponential : BrightnessCurve
  | logarithmic : BrightnessCurve
deriving DecidableEq

/-- `BasicModeConfig` from `src/app/lib/audio/generateFromImage.ts`. -/
structure BasicModeConfig where
  duration : ℚ
  minFreq : ℚ
  maxFreq : ℚ
  sampleRate : ℚ
  frequencyScale : FrequencyScale
  brightnessCurve : BrightnessCurve
  invertImage : Bool
  smoothing : ℚ
deriving DecidableEq

/-- `AudioGenerationInput` from `src/app/lib/audio/generateFromImage.ts`:
grayscale pixel data in row-major order with its dimensions. -/
structure AudioGenerationInput where
  data : List ℚ
  width : ℕ
  height : ℕ

/-- `computeRowFrequenciesLog` from `generateFromImage.ts` (lines 156-180):
log-spaced frequencies, row 0 maps to `maxFreq`, last row to `minFreq`. -/
def computeRowFrequenciesLog (R : RealFuns) (height : ℕ) (minFreq maxFreq : ℚ) :
    List ℚ :=
  if height = 0 then []
  else if height = 1 then [R.sqrtF (minFreq * maxFreq)]
  else
    (List.range height).map fun y =>
      minFreq * R.powF (maxFreq / minFreq) (1 - (y : ℚ) / ((height : ℚ) - 1))

/-- `computeRowFrequenciesLinear` from `generateFromImage.ts` (lines 193-216). -/
def computeRowFrequenciesLinear (height : ℕ) (minFreq maxFreq : ℚ) : List ℚ :=
  if height = 0 then []
  else if height = 1 then [(minFreq + maxFreq) / 2]
  else
    (List.range height).map fun y =>
      maxFreq - (y : ℚ) / ((height : ℚ) - 1) * (maxFreq - minFreq)

/-- `computeRowFrequencies` from `generateFromImage.ts` (lines 227-236). -/
def computeRowFrequencies (R : RealFuns) (height : ℕ) (minFreq maxFreq : ℚ)
    (scale : FrequencyScale) : List ℚ :=
  match scale with
  | FrequencyScale.logarithmic => computeRowFrequenciesLog R height minFreq maxFreq
  | FrequencyScale.linear => computeRowFrequenciesLinear height minFreq maxFreq

/-- `applyBrightnessCurve` from `generateFromImage.ts` (lines 250-271). -/
def applyBrightnessCurve (R : RealFuns) (value : ℚ) (curve : BrightnessCurve)
    (invert : Bool) : ℚ :=
  let v := if invert then 1 - value else value
  match curve with
  | BrightnessCurve.linear => v
  | BrightnessCurve.exponential => v * v
  | BrightnessCurve.logarithmic => R.logF (1 + v * 9) / R.logF 10

/-- `applyTemporalSmoothing` from `generateFromImage.ts` (lines 285-300).
The two in-place buffers are returned as a pair `(current, previous)`. -/
def applyTemporalSmoothing (current previous : List ℚ) (factor : ℚ) :
    List ℚ × List ℚ :=
  if factor ≤ 0 then (current, previous)
  else
    let blend := min 1 (max 0 factor)
    (List.range current.length).foldl
      (fun cp i =>
        let smoothed := cp.1.getD i 0 * (1 - blend) + cp.2.getD i 0 * blend
        (cp.1.set i smoothed, cp.2.set i (cp.1.getD i 0)))
      (current, previous)

/-- `SUBSAMPLE_THRESHOLD` from `generateFromImage.ts` (line 309). -/
def SUBSAMPLE_THRESHOLD : ℕ := 2000 * 2000

/-- `MAX_TARGET_PIXELS` from `generateFromImage.ts` (line 314). -/
def MAX_TARGET_PIXELS : ℕ := 2000 * 2000

/-- `MIN_AMPLITUDE_THRESHOLD` from `generateFromImage.ts` (line 320). -/
def MIN_AMPLITUDE_THRESHOLD : ℚ := 1 / 1000

/-- `calculateSubsamplingFactors` from `generateFromImage.ts` (lines 329-344). -/
def calculateSubsamplingFactors (R : RealFuns) (width height : ℕ) : ℕ × ℕ :=
  let totalPixels := width * height
  if totalPixels ≤ SUBSAMPLE_THRESHOLD then (1, 1)
  else
    let factor := R.sqrtF ((totalPixels : ℚ) / (MAX_TARGET_PIXELS : ℚ))
    let step := (⌈factor⌉).toNat
    (step, step)

/-- `NORMALIZATION_HEADROOM` from `generateFromImage.ts` (line 353). -/
def NORMALIZATION_HEADROOM : ℚ := 9 / 10

/-- The peak-search loop of `normalizePCM` (`generateFromImage.ts`
lines 365-369): running maximum of absolute values, starting from 0. -/
def findPeak (buffer : List ℚ) : ℚ :=
  buffer.foldl (fun peak v => if |v| > peak then |v| else peak) 0

/-- `normalizePCM` from `generateFromImage.ts` (lines 361-384), the in-place
mutation modelled by returning the resulting buffer. -/
def normalizePCM (buffer : List ℚ) : List ℚ :=
  if buffer.length = 0 then buffer
  else
    let peak := findPeak buffer
    if peak = 0 then buffer
    else
      let gain := NORMALIZATION_HEADROOM / peak
      if NORMALIZATION_HEADROOM < peak ∨ peak < 1 / 10 then
        buffer.map (fun v => v * gain)
      else buffer

/-- Runtime value supplied for the `frequencyScale` field of a partial
parameter object (`src/unnamed/part_010`): the sanitizer only compares it
against the literal string "linear", so arbitrary runtime strings are
abstracted into the matched literals plus `other`. -/
inductive ScaleInput where
  | linear : ScaleInput
  | logarithmic : ScaleInput
  | other : ScaleInput
deriving DecidableEq

/-- Runtime value supplied for the `brightnessCurve` field of a partial
parameter object; the sanitizer compares against "exponential" and
"logarithmic", everything else falls back to linear. -/
inductive CurveInput where
  | linear : CurveInput
  | exponential : CurveInput
  | logarithmic : CurveInput
  | other : CurveInput
deriving DecidableEq

/-- Rendering of a `FrequencyScale` back into the input space (in TS a
`ConversionParams` value is directly usable as a `Partial<ConversionParams>`;
the enum fields are the same strings). -/
def FrequencyScale.toInput : FrequencyScale → ScaleInput
  | FrequencyScale.linear => ScaleInput.linear
  | FrequencyScale.logarithmic => ScaleInput.logarithmic

/-- Rendering of a `BrightnessCurve` back into the input space. -/
def BrightnessCurve.toInput : BrightnessCurve → CurveInput
  | BrightnessCurve.linear => CurveInput.linear
  | BrightnessCurve.exponential => CurveInput.exponential
  | BrightnessCurve.logarithmic => CurveInput.logarithmic

/-- `ConversionParams` from `src/unnamed/part_010` (lines 68-86). -/
structure ConversionParams where
  duration : ℚ
  minFreq : ℚ
  maxFreq : ℚ
  frequencyScale : FrequencyScale
  sampleRate : ℚ
  brightnessCurve : BrightnessCurve
  invertImage : Bool
  smoothing : ℚ
deriving DecidableEq

/-- `Partial<ConversionParams>`: every field optional.  `none` models an
absent field. -/
structure ConversionParamsOpt where
  duration : Option ℚ := none
  minFreq : Option ℚ := none
  maxFreq : Option ℚ := none
  frequencyScale : Option ScaleInput := none
  sampleRate : Option ℚ := none
  brightnessCurve : Option CurveInput := none
  invertImage : Option Bool := none
  smoothing : Option ℚ := none

/-- `SAMPLE_RATES` from `src/unnamed/part_010` (lines 43-45). -/
def SAMPLE_RATES : List ℚ := [22050, 44100, 48000]

/-- One entry of `PARAM_RANGES` (`src/unnamed/part_010` lines 54-59). -/
structure ParamRange where
  lo : ℚ
  hi : ℚ

/-- `PARAM_RANGES` from `src/unnamed/part_010` (lines 54-59); the source
field names are `min`/`max`. -/
structure ParamRangesT where
  duration : ParamRange
  minFreq : ParamRange
  maxFreq : ParamRange
  smoothing : ParamRange

/-- The concrete `PARAM_RANGES` constant. -/
def PARAM_RANGES : ParamRangesT :=
  ⟨⟨1, 60⟩, ⟨20, 2000⟩, ⟨500, 22000⟩, ⟨0, 100⟩⟩

/-- `DEFAULT_CONVERSION_PARAMS` from `src/unnamed/part_010` (lines 91-100). -/
def DEFAULT_CONVERSION_PARAMS : ConversionParams :=
  { duration := 8
    minFreq := 50
    maxFreq := 16000
    frequencyScale := FrequencyScale.logarithmic
    sampleRate := 44100
    brightnessCurve := BrightnessCurve.linear
    invertImage := false
    smoothing := 15 }

/-- `clamp` from `src/unnamed/part_010` (lines 118-120):
`Math.min(max, Math.max(min, value))`. -/
def clamp (value lo hi : ℚ) : ℚ := min hi (max lo value)

/-- `sanitizeConversionParams` from `src/unnamed/part_010` (lines 266-320).
The spread `{ ...DEFAULT_CONVERSION_PARAMS, ...params }` is modelled by
`Option.getD` per field; the two-stage `minFreq < maxFreq` repair follows the
source exactly. -/
def sanitizeConversionParams (params : ConversionParamsOpt) : ConversionParams :=
  let baseDuration := params.duration.getD DEFAULT_CONVERSION_PARAMS.duration
  let baseMinFreq := params.minFreq.getD DEFAULT_CONVERSION_PARAMS.minFreq
  let baseMaxFreq := params.maxFreq.getD DEFAULT_CONVERSION_PARAMS.maxFreq
  let baseScale :=
    params.frequencyScale.getD DEFAULT_CONVERSION_PARAMS.frequencyScale.toInput
  let baseRate := params.sampleRate.getD DEFAULT_CONVERSION_PARAMS.sampleRate
  let baseCurve :=
    params.brightnessCurve.getD DEFAULT_CONVERSION_PARAMS.brightnessCurve.toInput
  let baseInvert := params.invertImage.getD DEFAULT_CONVERSION_PARAMS.invertImage
  let baseSmoothing := params.smoothing.getD DEFAULT_CONVERSION_PARAMS.smoothing
  let sMinFreq := clamp baseMinFreq PARAM_RANGES.minFreq.lo PARAM_RANGES.minFreq.hi
  let sMaxFreq := clamp baseMaxFreq PARAM_RANGES.maxFreq.lo PARAM_RANGES.maxFreq.hi
  -- if (sanitized.minFreq >= sanitized.maxFreq) { maxFreq = min(minFreq+500, 22000);
  --   if (still) { minFreq = maxFreq - 500 } }
  let repairedMaxFreq :=
    if sMinFreq ≥ sMaxFreq then min (sMinFreq + 500) PARAM_RANGES.maxFreq.hi
    else sMaxFreq
  let repairedMinFreq :=
    if sMinFreq ≥ repairedMaxFreq then repairedMaxFreq - 500 else sMinFreq
  { duration := clamp baseDuration PARAM_RANGES.duration.lo PARAM_RANGES.duration.hi
    minFreq := repairedMinFreq
    maxFreq := repairedMaxFreq
    smoothing := clamp baseSmoothing PARAM_RANGES.smoothing.lo PARAM_RANGES.smoothing.hi
    frequencyScale :=
      if baseScale = ScaleInput.linear then FrequencyScale.linear
      else FrequencyScale.logarithmic
    sampleRate := if baseRate ∈ SAMPLE_RATES then baseRate else 44100
    brightnessCurve :=
      if baseCurve = CurveInput.exponential then BrightnessCurve.exponential
      else if baseCurve = CurveInput.logarithmic then BrightnessCurve.logarithmic
      else BrightnessCurve.linear
    invertImage := baseInvert }

/-- A full `ConversionParams` viewed as a `Partial<ConversionParams>` (in TS
this is the implicit structural subtyping used when re-sanitizing a sanitized
object). -/
def ConversionParams.toOptParams (c : ConversionParams) : ConversionParamsOpt :=
  { duration := some c.duration
    minFreq := some c.minFreq
    maxFreq := some c.maxFreq
    frequencyScale := some c.frequencyScale.toInput
    sampleRate := some c.sampleRate
    brightnessCurve := some c.brightnessCurve.toInput
    invertImage := some c.invertImage
    smoothing := some c.smoothing }

/-- `toBasicModeConfig` from `generateFromImage.ts` (lines 91-102): converts
the UI format (smoothing 0-100) to the internal format (smoothing 0-1). -/
def toBasicModeConfig (params : ConversionParams) : BasicModeConfig :=
  { duration := params.duration
    minFreq := params.minFreq
    maxFreq := params.maxFreq
    sampleRate := params.sampleRate
    frequencyScale := params.frequencyScale
    brightnessCurve := params.brightnessCurve
    invertImage := params.invertImage
    smoothing := params.smoothing / 100 }

/-! ## WAV encoder (`src/unnamed/part_009`)

The `ArrayBuffer`/`DataView` pair is modelled as a byte memory `ℕ → ℕ`
(initially all zeroes, as `ArrayBuffer` is zero-initialized); the finished
file is read back as the list of the first `fileSize` bytes.  Every write the
source performs is in bounds, so function update is an exact model. -/

/-- A single `DataView.setUint8`-style store: the written value is reduced
mod 256 (a `DataView` keeps only the low byte). -/
def writeByte (b : ℕ → ℕ) (o v : ℕ) : ℕ → ℕ :=
  fun i => if i = o then v % 256 else b i

/-- `writeString` from `src/unnamed/part_009` (lines 66-70): writes the char
codes of an ASCII string at consecutive offsets. -/
def writeString (b : ℕ → ℕ) (o : ℕ) : List ℕ → ℕ → ℕ
  | [] => b
  | c :: rest => writeString (writeByte b o c) (o + 1) rest

/-- `DataView.setUint16(o, v, true)`: little-endian 16-bit store. -/
def setUint16LE (b : ℕ → ℕ) (o v : ℕ) : ℕ → ℕ :=
  writeByte (writeByte b o v) (o + 1) (v / 256)

/-- `DataView.setUint32(o, v, true)`: little-endian 32-bit store. -/
def setUint32LE (b : ℕ → ℕ) (o v : ℕ) : ℕ → ℕ :=
  writeByte (writeByte (writeByte (writeByte b o v) (o + 1) (v / 256))
    (o + 2) (v / 65536)) (o + 3) (v / 16777216)

/-- JavaScript `ToIntegerOrInfinity`: truncation of a number toward zero, as
performed by `DataView.setInt16` on a fractional argument. -/
def ratTrunc (q : ℚ) : ℤ := if 0 ≤ q then ⌊q⌋ else ⌈q⌉

/-- `DataView.setInt16(o, v, true)`: the integer is reduced into its low 16
bits (two's complement) and stored little-endian. -/
def setInt16LE (b : ℕ → ℕ) (o : ℕ) (v : ℤ) : ℕ → ℕ :=
  let u := (v % 65536).toNat
  writeByte (writeByte b o u) (o + 1) (u / 256)

/-- `clampSample` from `src/unnamed/part_009` (lines 79-81):
`Math.max(-1, Math.min(1, sample))`. -/
def clampSample (sample : ℚ) : ℚ := max (-1) (min 1 sample)

/-- `floatToInt16` from `src/unnamed/part_009` (lines 91-95): negative values
scaled by 0x8000, non-negative by 0x7FFF (the result is still fractional; the
truncation happens in the `setInt16` store). -/
def floatToInt16 (sample : ℚ) : ℚ :=
  let clamped := clampSample sample
  if clamped < 0 then clamped * 32768 else clamped * 32767

/-- The header writes of `encodeWavStereo` (`src/unnamed/part_009` lines
136-186), performed in source order on the zero-initialized buffer. -/
def wavHeader (sampleRate numSamples : ℕ) : ℕ → ℕ :=
  let blockAlign := 2 * 2                  -- NUM_CHANNELS * BYTES_PER_SAMPLE
  let byteRate := sampleRate * blockAlign
  let dataSize := numSamples * 2 * 2
  let fileSize := 44 + dataSize            -- WAV_HEADER_SIZE + dataSize
  let b0 : ℕ → ℕ := fun _ => 0
  let b1 := writeString b0 0 [82, 73, 70, 70]        -- "RIFF"
  let b2 := setUint32LE b1 4 (fileSize - 8)
  let b3 := writeString b2 8 [87, 65, 86, 69]        -- "WAVE"
  let b4 := writeString b3 12 [102, 109, 116, 32]    -- "fmt "
  let b5 := setUint32LE b4 16 16
  let b6 := setUint16LE b5 20 1
  let b7 := setUint16LE b6 22 2
  let b8 := setUint32LE b7 24 sampleRate
  let b9 := setUint32LE b8 28 byteRate
  let b10 := setUint16LE b9 32 blockAlign
  let b11 := setUint16LE b10 34 16
  let b12 := writeString b11 36 [100, 97, 116, 97]   -- "data"
  setUint32LE b12 40 dataSize

/-- The PCM sample writes of `encodeWavStereo` (`src/unnamed/part_009` lines
190-204): each sample truncated to int16 and stored twice (left then right)
at offset `44 + 4*i`. -/
def wavDataLoop (monoData : List ℚ) (b : ℕ → ℕ) (n : ℕ) : ℕ → ℕ :=
  (List.range n).foldl
    (fun acc i =>
      let v := ratTrunc (floatToInt16 (monoData.getD i 0))
      setInt16LE (setInt16LE acc (44 + 4 * i) v) (44 + 4 * i + 2) v)
    b

/-- `encodeWavStereo` from `src/unnamed/part_009` (lines 123-207): mono float
PCM to a stereo 16-bit RIFF/WAVE byte sequence (header writes, then the
sample loop, then the buffer is read out whole). -/
def encodeWavStereo (monoData : List ℚ) (sampleRate : ℕ) : List ℕ :=
  let numSamples := monoData.length
  let dataSize := numSamples * 2 * 2
  let fileSize := 44 + dataSize
  (List.range fileSize).map
    (wavDataLoop monoData (wavHeader sampleRate numSamples) numSamples)

/-- Little-endian 16-bit read-back from an encoded byte sequence. -/
def parseU16LE (bytes : List ℕ) (o : ℕ) : ℕ :=
  bytes.getD o 0 + 256 * bytes.getD (o + 1) 0

/-- Little-endian 32-bit read-back from an encoded byte sequence. -/
def parseU32LE (bytes : List ℕ) (o : ℕ) : ℕ :=
  bytes.getD o 0 + 256 * bytes.getD (o + 1) 0 + 65536 * bytes.getD (o + 2) 0 +
    16777216 * bytes.getD (o + 3) 0

/-! ## The synthesis loop (`generatePCM`, `generateFromImage.ts` 408-555) -/

/-- The error cases `generatePCM` can throw. -/
inductive GenError where
  | invalidSize
  | invalidDimensions
  | cancelled
deriving DecidableEq

/-- `Except` success test. -/
def exceptOk {ε α : Type} : Except ε α → Bool
  | Except.ok _ => true
  | Except.error _ => false

/-- `PROGRESS_INTERVAL` from `generateFromImage.ts` (line 393). -/
def PROGRESS_INTERVAL : ℕ := 10

/-- `totalSamples = Math.floor(sampleRate * duration)`
(`generateFromImage.ts` line 442). -/
def totalSamplesOf (cfg : BasicModeConfig) : ℕ :=
  (⌊cfg.sampleRate * cfg.duration⌋).toNat

/-- `Math.ceil(dim / step)` (`generateFromImage.ts` lines 446-447). -/
def effectiveDim (dim step : ℕ) : ℕ := (⌈(dim : ℚ) / (step : ℚ)⌉).toNat

/-- The phase-increment table `2 * PI * f / sampleRate`
(`generateFromImage.ts` lines 458-461). -/
def phaseIncrementsOf (R : RealFuns) (effectiveHeight : ℕ)
    (rowFrequencies : List ℚ) (sampleRate : ℚ) : List ℚ :=
  (List.range effectiveHeight).map fun y =>
    2 * R.piQ * rowFrequencies.getD y 0 / sampleRate

/-- `const startSample = Math.floor(x * samplesPerColumn)`
(`generateFromImage.ts` line 514). -/
def startSample (samplesPerColumn : ℚ) (x : ℕ) : ℕ :=
  (⌊(x : ℚ) * samplesPerColumn⌋).toNat

/-- `const endSample = Math.min(Math.floor((x+1) * samplesPerColumn),
totalSamples)` (`generateFromImage.ts` lines 515-518). -/
def endSample (samplesPerColumn : ℚ) (totalSamples x : ℕ) : ℕ :=
  min ((⌊((x : ℚ) + 1) * samplesPerColumn⌋).toNat) totalSamples

/-- The inner per-sample row loop (`generateFromImage.ts` lines 522-540):
accumulates the sample value over near-threshold rows and advances/wraps the
phase of every row.  (In the source the phase accumulator is a
`Float32Array` compared against the double `2*Math.PI`; that storage
rounding is not modelled here, and no theorem below depends on the numeric
phase values.) -/
def rowLoop (R : RealFuns) (amps incs : List ℚ) :
    List ℕ → ℚ → List ℚ → ℚ × List ℚ
  | [], sampleValue, phases => (sampleValue, phases)
  | y :: rest, sampleValue, phases =>
    let amplitude := amps.getD y 0
    let sv :=
      if amplitude > MIN_AMPLITUDE_THRESHOLD then
        sampleValue + amplitude * R.sinF (phases.getD y 0)
      else sampleValue
    let p1 := phases.getD y 0 + incs.getD y 0
    let p2 := if p1 > 2 * R.piQ then p1 - 2 * R.piQ else p1
    rowLoop R amps incs rest sv (phases.set y p2)

/-- The per-column sample loop (`generateFromImage.ts` lines 521-543): one
`rowLoop` per output sample index, writing the accumulated value. -/
def sampleLoop (R : RealFuns) (effectiveHeight : ℕ) (amps incs : List ℚ) :
    List ℕ → List ℚ → List ℚ → List ℚ × List ℚ
  | [], phases, output => (phases, output)
  | s :: rest, phases, output =>
    let r := rowLoop R amps incs (List.range effectiveHeight) 0 phases
    sampleLoop R effectiveHeight amps incs rest r.2 (output.set s r.1)

/-- The loop-invariant data of `generatePCM`'s column loop. -/
structure SynthContext where
  R : RealFuns
  data : List ℚ
  width : ℕ
  stepX : ℕ
  stepY : ℕ
  effectiveWidth : ℕ
  effectiveHeight : ℕ
  totalSamples : ℕ
  brightnessCurve : BrightnessCurve
  invertImage : Bool
  smoothing : ℚ
  phaseIncrements : List ℚ
  samplesPerColumn : ℚ
  isCancelled : ℕ → Bool

/-- The mutable state of `generatePCM`'s column loop. -/
structure SynthState where
  progressLog : List ℚ
  phases : List ℚ
  previousAmplitudes : List ℚ
  output : List ℚ

/-- The per-column amplitude extraction (`generateFromImage.ts` lines
489-503): subsampled pixel lookup plus brightness curve. -/
def columnAmplitudes (ctx : SynthContext) (x : ℕ) : List ℚ :=
  (List.range ctx.effectiveHeight).map fun y =>
    let srcY := y * ctx.stepY
    let pixelIndex := srcY * ctx.width + x * ctx.stepX
    applyBrightnessCurve ctx.R (ctx.data.getD pixelIndex 0) ctx.brightnessCurve
      ctx.invertImage

/-- The column loop of `generatePCM` (`generateFromImage.ts` lines 477-544):
cancellation poll, periodic progress, amplitude extraction, smoothing and the
sample loop, in source order. -/
def runColumns (ctx : SynthContext) :
    List ℕ → SynthState → List ℚ × Except GenError SynthState
  | [], st => (st.progressLog, Except.ok st)
  | x :: rest, st =>
    if ctx.isCancelled x then (st.progressLog, Except.error GenError.cancelled)
    else
      let log1 :=
        if x % PROGRESS_INTERVAL = 0 then
          st.progressLog ++ [(x : ℚ) / (ctx.effectiveWidth : ℚ) * 100]
        else st.progressLog
      let currentAmplitudes := columnAmplitudes ctx x
      let cp :=
        if 0 < x ∧ 0 < ctx.smoothing then
          applyTemporalSmoothing currentAmplitudes st.previousAmplitudes
            ctx.smoothing
        else (currentAmplitudes, currentAmplitudes)
      let sStart := startSample ctx.samplesPerColumn x
      let sEnd := endSample ctx.samplesPerColumn ctx.totalSamples x
      let po := sampleLoop ctx.R ctx.effectiveHeight cp.1 ctx.phaseIncrements
        (List.range' sStart (sEnd - sStart)) st.phases st.output
      runColumns ctx rest ⟨log1, po.1, cp.2, po.2⟩

/-- `generatePCM` from `generateFromImage.ts` (lines 408-555).  Returns the
progress values emitted through `onProgress` together with either the thrown
error or the normalized output buffer. -/
def generatePCM (R : RealFuns) (input : AudioGenerationInput)
    (cfg : BasicModeConfig) (isCancelled : ℕ → Bool) :
    List ℚ × Except GenError (List ℚ) :=
  if input.data.length ≠ input.width * input.height then
    ([], Except.error GenError.invalidSize)
  else if input.width = 0 ∨ input.height = 0 then
    ([], Except.error GenError.invalidDimensions)
  else
    let totalSamples := totalSamplesOf cfg
    let steps := calculateSubsamplingFactors R input.width input.height
    let effectiveWidth := effectiveDim input.width steps.1
    let effectiveHeight := effectiveDim input.height steps.2
    let rowFrequencies :=
      computeRowFrequencies R effectiveHeight cfg.minFreq cfg.maxFreq
        cfg.frequencyScale
    let phaseIncrements :=
      phaseIncrementsOf R effectiveHeight rowFrequencies cfg.sampleRate
    let samplesPerColumn := (totalSamples : ℚ) / (effectiveWidth : ℚ)
    let ctx : SynthContext :=
      ⟨R, input.data, input.width, steps.1, steps.2, effectiveWidth,
        effectiveHeight, totalSamples, cfg.brightnessCurve, cfg.invertImage,
        cfg.smoothing, phaseIncrements, samplesPerColumn, isCancelled⟩
    let st0 : SynthState :=
      ⟨[], List.replicate effectiveHeight 0, List.replicate effectiveHeight 0,
        List.replicate totalSamples 0⟩
    match runColumns ctx (List.range effectiveWidth) st0 with
    | (log, Except.error e) => (log, Except.error e)
    | (log, Except.ok st) => (log ++ [100], Except.ok (normalizePCM st.output))

/-! ## Helper lemmas -/

lemma clamp_le_hi (value lo hi : ℚ) : clamp value lo hi ≤ hi :=
  min_le_left _ _

lemma lo_le_clamp (value lo hi : ℚ) (h : lo ≤ hi) : lo ≤ clamp value lo hi :=
  le_min h (le_max_left lo value)

lemma clamp_eq_self (value lo hi : ℚ) (h1 : lo ≤ value) (h2 : value ≤ hi) :
    clamp value lo hi = value := by
  unfold clamp
  rw [max_eq_right h1, min_eq_right h2]

/-- The two-stage `minFreq < maxFreq` repair of `sanitizeConversionParams`,
analysed for already-clamped inputs `a` (minFreq) and `b` (maxFreq). -/
lemma repair_spec (a b : ℚ) (ha1 : 20 ≤ a) (ha2 : a ≤ 2000) (hb1 : 500 ≤ b)
    (hb2 : b ≤ 22000) :
    20 ≤ (if a ≥ (if a ≥ b then min (a + 500) 22000 else b)
          then (if a ≥ b then min (a + 500) 22000 else b) - 500 else a)
    ∧ (if a ≥ (if a ≥ b then min (a + 500) 22000 else b)
          then (if a ≥ b then min (a + 500) 22000 else b) - 500 else a) ≤ 2000
    ∧ 500 ≤ (if a ≥ b then min (a + 500) 22000 else b)
    ∧ (if a ≥ b then min (a + 500) 22000 else b) ≤ 22000
    ∧ (if a ≥ (if a ≥ b then min (a + 500) 22000 else b)
          then (if a ≥ b then min (a + 500) 22000 else b) - 500 else a)
        < (if a ≥ b then min (a + 500) 22000 else b) := by
  by_cases hab : a ≥ b
  · have hmin : min (a + 500) (22000 : ℚ) = a + 500 := min_eq_left (by linarith)
    simp only [if_pos hab, hmin]
    rw [if_neg (by linarith : ¬ a ≥ a + 500)]
    exact ⟨ha1, ha2, by linarith, by linarith, by linarith⟩
  · simp only [if_neg hab]
    exact ⟨ha1, ha2, hb1, hb2, lt_of_not_ge hab⟩

/-- All range facts about a sanitized parameter set, in one place. -/
lemma sanitize_bounds (p : ConversionParamsOpt) :
    1 ≤ (sanitizeConversionParams p).duration
    ∧ (sanitizeConversionParams p).duration ≤ 60
    ∧ 20 ≤ (sanitizeConversionParams p).minFreq
    ∧ (sanitizeConversionParams p).minFreq ≤ 2000
    ∧ 500 ≤ (sanitizeConversionParams p).maxFreq
    ∧ (sanitizeConversionParams p).maxFreq ≤ 22000
    ∧ (sanitizeConversionParams p).minFreq < (sanitizeConversionParams p).maxFreq
    ∧ 0 ≤ (sanitizeConversionParams p).smoothing
    ∧ (sanitizeConversionParams p).smoothing ≤ 100
    ∧ (sanitizeConversionParams p).sampleRate ∈ SAMPLE_RATES := by
  have hrep := repair_spec
    (clamp (p.minFreq.getD DEFAULT_CONVERSION_PARAMS.minFreq) 20 2000)
    (clamp (p.maxFreq.getD DEFAULT_CONVERSION_PARAMS.maxFreq) 500 22000)
    (lo_le_clamp _ _ _ (by norm_num [PARAM_RANGES])) (clamp_le_hi _ _ _)
    (lo_le_clamp _ _ _ (by norm_num [PARAM_RANGES])) (clamp_le_hi _ _ _)
  have hrate : (if p.sampleRate.getD DEFAULT_CONVERSION_PARAMS.sampleRate ∈ SAMPLE_RATES
      then p.sampleRate.getD DEFAULT_CONVERSION_PARAMS.sampleRate else (44100 : ℚ)) ∈
      SAMPLE_RATES := by
    split
    · assumption
    · simp [SAMPLE_RATES]
  exact ⟨lo_le_clamp _ _ _ (by norm_num [PARAM_RANGES]), clamp_le_hi _ _ _,
    hrep.1, hrep.2.1, hrep.2.2.1, hrep.2.2.2.1, hrep.2.2.2.2,
    lo_le_clamp _ _ _ (by norm_num [PARAM_RANGES]), clamp_le_hi _ _ _, hrate⟩

/-! ## Claims C7, C8, C10: parameter sanitization -/

/-- C7: for every partial `ConversionParams` input, `sanitizeConversionParams`
returns a params object with `minFreq` strictly less than `maxFreq`: after
clamping `minFreq` to [20, 2000] and `maxFreq` to [500, 22000], any remaining
violation is repaired, so `minFrequencyHz < maxFrequencyHz` holds by
construction for every accepted job. -/
theorem sanitize_minFreq_lt_maxFreq (p : ConversionParamsOpt) :
    (sanitizeConversionParams p).minFreq < (sanitizeConversionParams p).maxFreq :=
  (sanitize_bounds p).2.2.2.2.2.2.1

/-- C8 counterexample: the sanitizer's output keeps `smoothing` on the
percentage scale 0-100; sanitizing the empty partial object yields the
default `smoothing = 15`, which is not in [0, 1]. -/
theorem sanitize_smoothing_not_fraction :
    (sanitizeConversionParams {}).smoothing = 15
    ∧ ¬ (sanitizeConversionParams {}).smoothing ≤ 1 := by
  constructor <;>
    norm_num [sanitizeConversionParams, DEFAULT_CONVERSION_PARAMS, PARAM_RANGES,
      clamp, Option.getD]

/-- C8 (amended): every result of `sanitizeConversionParams` has `smoothing`
in [0, 100] (a percentage); the fraction-scaled value in [0, 1] appears only
after the `toBasicModeConfig` conversion (which divides by 100). -/
theorem sanitize_smoothing_percent_and_config_fraction (p : ConversionParamsOpt) :
    0 ≤ (sanitizeConversionParams p).smoothing
    ∧ (sanitizeConversionParams p).smoothing ≤ 100
    ∧ 0 ≤ (toBasicModeConfig (sanitizeConversionParams p)).smoothing
    ∧ (toBasicModeConfig (sanitizeConversionParams p)).smoothing ≤ 1 := by
  have h := sanitize_bounds p
  have h1 := h.2.2.2.2.2.2.2.1
  have h2 := h.2.2.2.2.2.2.2.2.1
  refine ⟨h1, h2, ?_, ?_⟩ <;> simp only [toBasicModeConfig] <;> linarith

/-- C10: `sanitizeConversionParams` is idempotent: re-sanitizing a sanitized
parameter object returns it unchanged. -/
theorem sanitizeConversionParams_idem (p : ConversionParamsOpt) :
    sanitizeConversionParams ((sanitizeConversionParams p).toOptParams)
      = sanitizeConversionParams p := by
  obtain ⟨hd1, hd2, hm1, hm2, hx1, hx2, hlt, hs1, hs2, hrate⟩ := sanitize_bounds p
  rcases hqe : sanitizeConversionParams p with ⟨d, mn, mx, fs, sr, bc, inv, sm⟩
  rw [hqe] at hd1 hd2 hm1 hm2 hx1 hx2 hlt hs1 hs2 hrate
  simp only at hd1 hd2 hm1 hm2 hx1 hx2 hlt hs1 hs2 hrate
  unfold sanitizeConversionParams ConversionParams.toOptParams
  simp only [Option.getD_some, PARAM_RANGES]
  rw [clamp_eq_self d 1 60 hd1 hd2, clamp_eq_self mn 20 2000 hm1 hm2,
    clamp_eq_self mx 500 22000 hx1 hx2, clamp_eq_self sm 0 100 hs1 hs2]
  rw [if_neg (not_le.mpr hlt), if_neg (not_le.mpr hlt), if_pos hrate]
  cases fs <;> cases bc <;>
    simp [FrequencyScale.toInput, BrightnessCurve.toInput]

/-! ## Claim C5: normalizePCM -/

lemma foldl_peak_init_le (l : List ℚ) :
    ∀ p0 : ℚ, p0 ≤ l.foldl (fun peak v => if |v| > peak then |v| else peak) p0 := by
  induction l with
  | nil => intro p0; simp
  | cons x xs ih =>
    intro p0
    simp only [List.foldl_cons]
    refine le_trans ?_ (ih _)
    split
    · linarith
    · exact le_refl p0

lemma foldl_peak_mem_le (l : List ℚ) :
    ∀ p0 : ℚ, ∀ x ∈ l,
      |x| ≤ l.foldl (fun peak v => if |v| > peak then |v| else peak) p0 := by
  induction l with
  | nil => intro p0 x hx; simp at hx
  | cons y ys ih =>
    intro p0 x hx
    simp only [List.foldl_cons]
    rcases List.mem_cons.mp hx with rfl | hmem
    · refine le_trans ?_ (foldl_peak_init_le ys _)
      split
      · exact le_refl _
      · linarith
    · exact ih _ x hmem

lemma foldl_peak_le (l : List ℚ) :
    ∀ p0 c : ℚ, p0 ≤ c → (∀ x ∈ l, |x| ≤ c) →
      l.foldl (fun peak v => if |v| > peak then |v| else peak) p0 ≤ c := by
  induction l with
  | nil => intro p0 c h _; simpa using h
  | cons y ys ih =>
    intro p0 c h hall
    simp only [List.foldl_cons]
    refine ih _ c ?_ fun x hx => hall x (List.mem_cons_of_mem y hx)
    split
    · exact hall y (List.mem_cons_self y ys)
    · exact h

lemma findPeak_nonneg (l : List ℚ) : 0 ≤ findPeak l := foldl_peak_init_le l 0

lemma abs_le_findPeak (l : List ℚ) (x : ℚ) (h : x ∈ l) : |x| ≤ findPeak l :=
  foldl_peak_mem_le l 0 x h

lemma findPeak_le (l : List ℚ) (c : ℚ) (hc : 0 ≤ c) (h : ∀ x ∈ l, |x| ≤ c) :
    findPeak l ≤ c := foldl_peak_le l 0 c hc h

lemma getD_zero_or_mem (l : List ℚ) (i : ℕ) : l.getD i 0 = 0 ∨ l.getD i 0 ∈ l := by
  by_cases h : i < l.length
  · right
    rw [List.getD_eq_getElem?_getD, List.getElem?_eq_getElem h]
    exact List.getElem_mem h
  · left
    rw [List.getD_eq_getElem?_getD, List.getElem?_eq_none (by omega)]
    rfl

/-- Every element of a normalized buffer has absolute value at most 9/10. -/
lemma normalizePCM_mem_bound (buffer : List ℚ) :
    ∀ x ∈ normalizePCM buffer, |x| ≤ 9 / 10 := by
  intro x hx
  simp only [normalizePCM] at hx
  split_ifs at hx with h1 h2 h3
  · rw [List.length_eq_zero.mp h1] at hx
    simp at hx
  · have := abs_le_findPeak buffer x hx
    rw [h2] at this
    linarith
  · obtain ⟨v, hv, rfl⟩ := List.mem_map.mp hx
    have hvp : |v| ≤ findPeak buffer := abs_le_findPeak buffer v hv
    have hpos : 0 < findPeak buffer := (findPeak_nonneg buffer).lt_of_ne (Ne.symm h2)
    have hgain : 0 ≤ NORMALIZATION_HEADROOM / findPeak buffer := by
      unfold NORMALIZATION_HEADROOM
      positivity
    calc |v * (NORMALIZATION_HEADROOM / findPeak buffer)|
        = |v| * (NORMALIZATION_HEADROOM / findPeak buffer) := by
          rw [abs_mul, abs_of_nonneg hgain]
      _ ≤ findPeak buffer * (NORMALIZATION_HEADROOM / findPeak buffer) := by
          exact mul_le_mul_of_nonneg_right hvp hgain
      _ = NORMALIZATION_HEADROOM := mul_div_cancel₀ _ hpos.ne'
      _ = 9 / 10 := rfl
  · push_neg at h3
    have := abs_le_findPeak buffer x hx
    have hle : findPeak buffer ≤ NORMALIZATION_HEADROOM := h3.1
    unfold NORMALIZATION_HEADROOM at hle
    linarith

/-- C5: `normalizePCM`, operating in place, leaves an all-zero buffer all
zeros, leaves the buffer untouched when its peak absolute value lies in
[0.1, 0.9], and otherwise (peak > 0.9 or 0 < peak < 0.1) multiplies every
sample by 0.9/peak; consequently the peak absolute value after normalization
never exceeds 0.9. -/
theorem normalizePCM_correct (buffer : List ℚ) :
    ((∀ v ∈ buffer, v = 0) → normalizePCM buffer = buffer)
    ∧ (1 / 10 ≤ findPeak buffer → findPeak buffer ≤ 9 / 10 →
        normalizePCM buffer = buffer)
    ∧ ((9 / 10 < findPeak buffer ∨
          (0 < findPeak buffer ∧ findPeak buffer < 1 / 10)) →
        normalizePCM buffer =
          buffer.map (fun v => v * (9 / 10 / findPeak buffer)))
    ∧ (∀ i : ℕ, |(normalizePCM buffer).getD i 0| ≤ 9 / 10) := by
  refine ⟨?_, ?_, ?_, ?_⟩
  · intro hz
    simp only [normalizePCM]
    split_ifs with h1 h2 h3
    · rfl
    · rfl
    · exfalso
      have : findPeak buffer = 0 := by
        refine le_antisymm (findPeak_le _ 0 le_rfl fun x hx => ?_) (findPeak_nonneg _)
        rw [hz x hx]
        simp
      exact h2 this
    · rfl
  · intro hge hle
    simp only [normalizePCM]
    split_ifs with h1 h2 h3
    · rfl
    · rfl
    · exfalso
      unfold NORMALIZATION_HEADROOM at h3
      rcases h3 with h | h <;> linarith
    · rfl
  · intro hcond
    have hpos : 0 < findPeak buffer := by
      rcases hcond with h | h
      · linarith
      · exact h.1
    simp only [normalizePCM]
    split_ifs with h1 h2 h3
    · exfalso
      rw [List.length_eq_zero.mp h1] at hpos
      simp [findPeak] at hpos
    · exact absurd h2 hpos.ne'
    · rfl
    · exfalso
      unfold NORMALIZATION_HEADROOM at h3
      push_neg at h3
      rcases hcond with h | h
      · linarith [h3.1]
      · linarith [h3.2, h.2]
  · intro i
    rcases getD_zero_or_mem (normalizePCM buffer) i with h | h
    · rw [h]; norm_num
    · exact normalizePCM_mem_bound buffer _ h

/-- C5 witness: a concrete loud buffer is rescaled to the 0.9 headroom. -/
theorem normalizePCM_correct_witness :
    normalizePCM [1, 2] = [9 / 20, 9 / 10] := by
  have h := (normalizePCM_correct [1, 2]).2.2.1
    (Or.inl (by norm_num [findPeak]))
  rw [h]
  norm_num [findPeak]

/-! ## Claim C6: applyTemporalSmoothing -/

lemma getD_set_ne (l : List ℚ) (i j : ℕ) (v : ℚ) (h : i ≠ j) :
    (l.set i v).getD j 0 = l.getD j 0 := by
  simp [List.getD_eq_getElem?_getD, List.getElem?_set_ne h]

lemma getD_set_self (l : List ℚ) (i : ℕ) (v : ℚ) (h : i < l.length) :
    (l.set i v).getD i 0 = v := by
  simp [List.getD_eq_getElem?_getD, List.getElem?_set_self, h]

/-- The loop body of `applyTemporalSmoothing`, as a named step function. -/
def smoothStep (blend : ℚ) (cp : List ℚ × List ℚ) (i : ℕ) : List ℚ × List ℚ :=
  let smoothed := cp.1.getD i 0 * (1 - blend) + cp.2.getD i 0 * blend
  (cp.1.set i smoothed, cp.2.set i (cp.1.getD i 0))

lemma applyTemporalSmoothing_eq (current previous : List ℚ) (factor : ℚ) :
    applyTemporalSmoothing current previous factor =
      if factor ≤ 0 then (current, previous)
      else (List.range current.length).foldl
        (smoothStep (min 1 (max 0 factor))) (current, previous) := rfl

/-- Pointwise description of the `smoothStep` fold over an index range. -/
lemma smoothStep_foldl (blend : ℚ) :
    ∀ (n s : ℕ) (c p : List ℚ),
      ((List.range' s n).foldl (smoothStep blend) (c, p)).1.length = c.length
      ∧ ((List.range' s n).foldl (smoothStep blend) (c, p)).2.length = p.length
      ∧ (∀ j, j < s →
          ((List.range' s n).foldl (smoothStep blend) (c, p)).1.getD j 0 = c.getD j 0
          ∧ ((List.range' s n).foldl (smoothStep blend) (c, p)).2.getD j 0 = p.getD j 0)
      ∧ (∀ j, s ≤ j → j < s + n → j < c.length → j < p.length →
          ((List.range' s n).foldl (smoothStep blend) (c, p)).1.getD j 0
            = c.getD j 0 * (1 - blend) + p.getD j 0 * blend
          ∧ ((List.range' s n).foldl (smoothStep blend) (c, p)).2.getD j 0
            = c.getD j 0) := by
  intro n
  induction n with
  | zero =>
    intro s c p
    refine ⟨rfl, rfl, fun j _ => ⟨rfl, rfl⟩, fun j h1 h2 _ _ => absurd h2 (by omega)⟩
  | succ m ih =>
    intro s c p
    rw [List.range'_succ]
    simp only [List.foldl_cons]
    have hstep : smoothStep blend (c, p) s =
        (c.set s (c.getD s 0 * (1 - blend) + p.getD s 0 * blend),
         p.set s (c.getD s 0)) := rfl
    rw [hstep]
    obtain ⟨ih1, ih2, ihout, ihin⟩ :=
      ih (s + 1) (c.set s (c.getD s 0 * (1 - blend) + p.getD s 0 * blend))
        (p.set s (c.getD s 0))
    refine ⟨by rw [ih1, List.length_set], by rw [ih2, List.length_set],
      fun j hj => ?_, fun j hj1 hj2 hjc hjp => ?_⟩
    · obtain ⟨o1, o2⟩ := ihout j (by omega)
      rw [o1, o2, getD_set_ne _ _ _ _ (by omega), getD_set_ne _ _ _ _ (by omega)]
      exact ⟨rfl, rfl⟩
    · by_cases hsj : s = j
      · subst hsj
        obtain ⟨o1, o2⟩ := ihout s (by omega)
        rw [o1, o2, getD_set_self _ _ _ hjc, getD_set_self _ _ _ hjp]
        exact ⟨rfl, rfl⟩
      · obtain ⟨i1, i2⟩ := ihin j (by omega) (by omega)
          (by rw [List.length_set]; exact hjc) (by rw [List.length_set]; exact hjp)
        rw [i1, i2, getD_set_ne _ _ _ _ (by omega), getD_set_ne _ _ _ _ (by omega)]
        exact ⟨rfl, rfl⟩

/-- C6: for equal-length buffers, `applyTemporalSmoothing` with factor ≤ 0 is
the identity; with factor = 1 the new `current` equals the old `previous`;
and for factor in (0, 1] the new `previous` holds the pre-blend `current`
while `current` becomes `current*(1-factor) + previous*factor`. -/
theorem applyTemporalSmoothing_correct (current previous : List ℚ) (factor : ℚ)
    (hlen : previous.length = current.length) :
    (factor ≤ 0 → applyTemporalSmoothing current previous factor = (current, previous))
    ∧ (factor = 1 → ∀ i, i < current.length →
        (applyTemporalSmoothing current previous factor).1.getD i 0
          = previous.getD i 0)
    ∧ (0 < factor → factor ≤ 1 → ∀ i, i < current.length →
        (applyTemporalSmoothing current previous factor).2.getD i 0
          = current.getD i 0
        ∧ (applyTemporalSmoothing current previous factor).1.getD i 0
          = current.getD i 0 * (1 - factor) + previous.getD i 0 * factor) := by
  have key : 0 < factor → factor ≤ 1 → ∀ i, i < current.length →
      (applyTemporalSmoothing current previous factor).1.getD i 0
        = current.getD i 0 * (1 - factor) + previous.getD i 0 * factor
      ∧ (applyTemporalSmoothing current previous factor).2.getD i 0
        = current.getD i 0 := by
    intro hf hf1 i hi
    rw [applyTemporalSmoothing_eq, if_neg (not_le.mpr hf),
      max_eq_right hf.le, min_eq_right hf1, List.range_eq_range']
    exact (smoothStep_foldl factor current.length 0 current previous).2.2.2 i
      (Nat.zero_le i) (by omega) hi (by omega)
  refine ⟨fun h => by rw [applyTemporalSmoothing_eq, if_pos h],
    fun h1 i hi => ?_, fun hf hf1 i hi => ⟨(key hf hf1 i hi).2, (key hf hf1 i hi).1⟩⟩
  subst h1
  rw [(key one_pos le_rfl i hi).1]
  ring

/-- C6 witness: a concrete blend with factor 1/2. -/
theorem applyTemporalSmoothing_correct_witness :
    (applyTemporalSmoothing [1, 2] [3, 4] (1 / 2)).2.getD 0 0 = 1
    ∧ (applyTemporalSmoothing [1, 2] [3, 4] (1 / 2)).1.getD 0 0 = 2 := by
  have h := (applyTemporalSmoothing_correct [1, 2] [3, 4] (1 / 2)
    (by norm_num)).2.2 (by norm_num) (by norm_num) 0 (by norm_num)
  refine ⟨h.1.trans (by norm_num), h.2.trans ?_⟩
  norm_num

/-! ## Claim C4: the WAV encoder -/

lemma getD_map_range (f : ℕ → ℕ) (n o : ℕ) (h : o < n) :
    ((List.range n).map f).getD o 0 = f o := by
  rw [List.getD_eq_getElem?_getD, List.getElem?_map, List.getElem?_range h]
  rfl

/-- The sample loop never touches the header region. -/
lemma wavDataLoop_low (monoData : List ℚ) (b : ℕ → ℕ) :
    ∀ n i, i < 44 → wavDataLoop monoData b n i = b i := by
  intro n
  induction n with
  | zero => intro i _; rfl
  | succ m ih =>
    intro i hi
    unfold wavDataLoop
    rw [List.range_succ, List.foldl_append, List.foldl_cons, List.foldl_nil]
    simp only [setInt16LE, writeByte]
    rw [if_neg (show ¬ i = 44 + 4 * m + 2 + 1 by omega),
      if_neg (show ¬ i = 44 + 4 * m + 2 by omega),
      if_neg (show ¬ i = 44 + 4 * m + 1 by omega),
      if_neg (show ¬ i = 44 + 4 * m by omega)]
    exact ih i hi

/-- The four bytes written for sample `j`: the truncated int16 value,
little-endian, duplicated into the left and right channels. -/
lemma wavDataLoop_bytes (monoData : List ℚ) (b : ℕ → ℕ) :
    ∀ n j, j < n →
      wavDataLoop monoData b n (44 + 4 * j)
          = (ratTrunc (floatToInt16 (monoData.getD j 0)) % 65536).toNat % 256
      ∧ wavDataLoop monoData b n (44 + 4 * j + 1)
          = (ratTrunc (floatToInt16 (monoData.getD j 0)) % 65536).toNat / 256 % 256
      ∧ wavDataLoop monoData b n (44 + 4 * j + 2)
          = (ratTrunc (floatToInt16 (monoData.getD j 0)) % 65536).toNat % 256
      ∧ wavDataLoop monoData b n (44 + 4 * j + 3)
          = (ratTrunc (floatToInt16 (monoData.getD j 0)) % 65536).toNat / 256 % 256 := by
  intro n
  induction n with
  | zero => intro j hj; exact absurd hj (Nat.not_lt_zero j)
  | succ m ih =>
    intro j hj
    unfold wavDataLoop
    rw [List.range_succ, List.foldl_append, List.foldl_cons, List.foldl_nil]
    by_cases hjm : j = m
    · subst hjm
      refine ⟨?_, ?_, ?_, ?_⟩ <;> simp only [setInt16LE, writeByte]
      · rw [if_neg (show ¬ 44 + 4 * j = 44 + 4 * j + 2 + 1 by omega),
          if_neg (show ¬ 44 + 4 * j = 44 + 4 * j + 2 by omega),
          if_neg (show ¬ 44 + 4 * j = 44 + 4 * j + 1 by omega)]
        simp
      · rw [if_neg (show ¬ 44 + 4 * j + 1 = 44 + 4 * j + 2 + 1 by omega),
          if_neg (show ¬ 44 + 4 * j + 1 = 44 + 4 * j + 2 by omega)]
        simp
      · rw [if_neg (show ¬ 44 + 4 * j + 2 = 44 + 4 * j + 2 + 1 by omega)]
        simp
      · simp
    · have hlt : j < m := by omega
      obtain ⟨i1, i2, i3, i4⟩ := ih j hlt
      refine ⟨?_, ?_, ?_, ?_⟩ <;> simp only [setInt16LE, writeByte]
      · rw [if_neg (show ¬ 44 + 4 * j = 44 + 4 * m + 2 + 1 by omega),
          if_neg (show ¬ 44 + 4 * j = 44 + 4 * m + 2 by omega),
          if_neg (show ¬ 44 + 4 * j = 44 + 4 * m + 1 by omega),
          if_neg (show ¬ 44 + 4 * j = 44 + 4 * m by omega)]
        exact i1
      · rw [if_neg (show ¬ 44 + 4 * j + 1 = 44 + 4 * m + 2 + 1 by omega),
          if_neg (show ¬ 44 + 4 * j + 1 = 44 + 4 * m + 2 by omega),
          if_neg (show ¬ 44 + 4 * j + 1 = 44 + 4 * m + 1 by omega),
          if_neg (show ¬ 44 + 4 * j + 1 = 44 + 4 * m by omega)]
        exact i2
      · rw [if_neg (show ¬ 44 + 4 * j + 2 = 44 + 4 * m + 2 + 1 by omega),
          if_neg (show ¬ 44 + 4 * j + 2 = 44 + 4 * m + 2 by omega),
          if_neg (show ¬ 44 + 4 * j + 2 = 44 + 4 * m + 1 by omega),
          if_neg (show ¬ 44 + 4 * j + 2 = 44 + 4 * m by omega)]
        exact i3
      · rw [if_neg (show ¬ 44 + 4 * j + 3 = 44 + 4 * m + 2 + 1 by omega),
          if_neg (show ¬ 44 + 4 * j + 3 = 44 + 4 * m + 2 by omega),
          if_neg (show ¬ 44 + 4 * j + 3 = 44 + 4 * m + 1 by omega),
          if_neg (show ¬ 44 + 4 * j + 3 = 44 + 4 * m by omega)]
        exact i4

/-- C4: for every mono buffer and sample rate, `encodeWavStereo` returns
44 + 4*numSamples bytes; re-parsing the header recovers the sample rate,
NumChannels = 2, BitsPerSample = 16, Subchunk2Size = 4*numSamples and
ChunkSize = fileSize - 8; and each mono sample is independently clamped,
scaled by 0x8000 when negative and 0x7FFF when non-negative, truncated, and
written identically into left then right channel as little-endian 16-bit
values from byte 44 on. -/
theorem encodeWavStereo_correct (monoData : List ℚ) (sampleRate : ℕ)
    (hsr : sampleRate < 4294967296)
    (hsz : 44 + 4 * monoData.length ≤ 4294967296) :
    (encodeWavStereo monoData sampleRate).length = 44 + 4 * monoData.length
    ∧ parseU32LE (encodeWavStereo monoData sampleRate) 4
        = (encodeWavStereo monoData sampleRate).length - 8
    ∧ parseU16LE (encodeWavStereo monoData sampleRate) 22 = 2
    ∧ parseU32LE (encodeWavStereo monoData sampleRate) 24 = sampleRate
    ∧ parseU16LE (encodeWavStereo monoData sampleRate) 34 = 16
    ∧ parseU32LE (encodeWavStereo monoData sampleRate) 40 = 4 * monoData.length
    ∧ (∀ j, j < monoData.length →
        (encodeWavStereo monoData sampleRate).getD (44 + 4 * j) 0
            = (ratTrunc (floatToInt16 (monoData.getD j 0)) % 65536).toNat % 256
        ∧ (encodeWavStereo monoData sampleRate).getD (44 + 4 * j + 1) 0
            = (ratTrunc (floatToInt16 (monoData.getD j 0)) % 65536).toNat / 256
        ∧ (encodeWavStereo monoData sampleRate).getD (44 + 4 * j + 2) 0
            = (encodeWavStereo monoData sampleRate).getD (44 + 4 * j) 0
        ∧ (encodeWavStereo monoData sampleRate).getD (44 + 4 * j + 3) 0
            = (encodeWavStereo monoData sampleRate).getD (44 + 4 * j + 1) 0)
    ∧ (∀ q : ℚ, floatToInt16 q =
        if clampSample q < 0 then clampSample q * 32768
        else clampSample q * 32767) := by
  have hlen : (encodeWavStereo monoData sampleRate).length
      = 44 + 4 * monoData.length := by
    simp only [encodeWavStereo, List.length_map, List.length_range]
    omega
  have hget : ∀ o, o < 44 + 4 * monoData.length →
      (encodeWavStereo monoData sampleRate).getD o 0
        = wavDataLoop monoData (wavHeader sampleRate monoData.length)
            monoData.length o := by
    intro o ho
    simp only [encodeWavStereo]
    rw [getD_map_range _ _ _ (by omega)]
  have hhead : ∀ o, o < 44 →
      (encodeWavStereo monoData sampleRate).getD o 0
        = wavHeader sampleRate monoData.length o := by
    intro o ho
    rw [hget o (by omega), wavDataLoop_low]
    exact ho
  refine ⟨hlen, ?_, ?_, ?_, ?_, ?_, ?_, fun q => rfl⟩
  · rw [hlen]
    unfold parseU32LE
    rw [hhead 4 (by omega), hhead 5 (by omega), hhead 6 (by omega),
      hhead 7 (by omega)]
    simp only [wavHeader, writeString, setUint16LE, setUint32LE, writeByte]
    norm_num
    omega
  · unfold parseU16LE
    rw [hhead 22 (by omega), hhead 23 (by omega)]
    simp [wavHeader, writeString, setUint16LE, setUint32LE, writeByte]
  · unfold parseU32LE
    rw [hhead 24 (by omega), hhead 25 (by omega), hhead 26 (by omega),
      hhead 27 (by omega)]
    simp only [wavHeader, writeString, setUint16LE, setUint32LE, writeByte]
    norm_num
    omega
  · unfold parseU16LE
    rw [hhead 34 (by omega), hhead 35 (by omega)]
    simp [wavHeader, writeString, setUint16LE, setUint32LE, writeByte]
  · unfold parseU32LE
    rw [hhead 40 (by omega), hhead 41 (by omega), hhead 42 (by omega),
      hhead 43 (by omega)]
    simp only [wavHeader, writeString, setUint16LE, setUint32LE, writeByte]
    norm_num
    omega
  · intro j hj
    obtain ⟨b0, b1, b2, b3⟩ := wavDataLoop_bytes monoData
      (wavHeader sampleRate monoData.length) monoData.length j hj
    have hu : (ratTrunc (floatToInt16 (monoData.getD j 0)) % 65536).toNat < 65536 := by
      have h1 : (0 : ℤ) ≤ ratTrunc (floatToInt16 (monoData.getD j 0)) % 65536 :=
        Int.emod_nonneg _ (by norm_num)
      have h2 : ratTrunc (floatToInt16 (monoData.getD j 0)) % 65536 < 65536 :=
        Int.emod_lt_of_pos _ (by norm_num)
      omega
    refine ⟨?_, ?_, ?_, ?_⟩
    · rw [hget _ (by omega)]; exact b0
    · rw [hget _ (by omega), b1]; omega
    · rw [hget _ (by omega), hget _ (by omega), b2, b0]
    · rw [hget _ (by omega), hget _ (by omega), b3, b1]

/-- C4 witness: a concrete two-sample buffer at 44100 Hz. -/
theorem encodeWavStereo_correct_witness :
    (encodeWavStereo [1 / 2, -1 / 2] 44100).length = 52
    ∧ parseU32LE (encodeWavStereo [1 / 2, -1 / 2] 44100) 24 = 44100 := by
  have h := encodeWavStereo_correct [1 / 2, -1 / 2] 44100 (by norm_num)
    (by norm_num)
  exact ⟨h.1.trans (by norm_num), h.2.2.2.1⟩

/-! ## Claim C3: generatePCM input validation -/

/-- With a never-true cancellation poll the column loop cannot fail. -/
lemma runColumns_res_ok (ctx : SynthContext) :
    ∀ (cols : List ℕ) (st : SynthState) (log : List ℚ) (e : GenError),
      (∀ n, ctx.isCancelled n = false) →
      runColumns ctx cols st = (log, Except.error e) → False := by
  intro cols
  induction cols with
  | nil =>
    intro st log e _ h
    simp only [runColumns, Prod.mk.injEq] at h
    exact absurd h.2 (by simp)
  | cons x rest ih =>
    intro st log e hc h
    simp only [runColumns, hc x, Bool.false_eq_true, if_false] at h
    exact ih _ _ _ hc h

/-- C3: with a cancellation poll that never fires, `generatePCM` throws if
and only if `pixels.length ≠ width*height` or a dimension is non-positive;
the invalid-input failure happens before any synthesis work or progress
emission, with the specific error and an empty progress log, and no output
buffer is produced. -/
theorem generatePCM_error_iff (R : RealFuns) (input : AudioGenerationInput)
    (cfg : BasicModeConfig) :
    (exceptOk (generatePCM R input cfg (fun _ => false)).2 = true ↔
      (input.data.length = input.width * input.height
        ∧ 0 < input.width ∧ 0 < input.height))
    ∧ (input.data.length ≠ input.width * input.height →
        generatePCM R input cfg (fun _ => false)
          = ([], Except.error GenError.invalidSize))
    ∧ (input.data.length = input.width * input.height →
        (input.width = 0 ∨ input.height = 0) →
        generatePCM R input cfg (fun _ => false)
          = ([], Except.error GenError.invalidDimensions)) := by
  refine ⟨⟨?_, ?_⟩, ?_, ?_⟩
  · intro h
    rw [generatePCM] at h
    split_ifs at h with h1 h2
    · simp [exceptOk] at h
    · simp [exceptOk] at h
    · push_neg at h2
      exact ⟨not_ne_iff.mp h1, Nat.pos_of_ne_zero h2.1, Nat.pos_of_ne_zero h2.2⟩
  · rintro ⟨hdata, hw, hh⟩
    simp only [generatePCM, if_neg (not_not_intro hdata),
      if_neg (show ¬ (input.width = 0 ∨ input.height = 0) by omega)]
    split
    · next log e heq =>
      exact absurd heq
        (fun h => runColumns_res_ok _ _ _ _ _ (fun _ => rfl) h)
    · next log st heq => simp [exceptOk]
  · intro h1
    rw [generatePCM, if_pos h1]
  · intro h1 h2
    rw [generatePCM, if_neg (not_not_intro h1), if_pos h2]

/-- C3 witness: a concrete valid 2×2 input succeeds, a concrete mismatched
input fails with the size error. -/
theorem generatePCM_error_iff_witness :
    exceptOk (generatePCM ⟨fun _ => 0, fun _ => 1, fun _ _ => 1, fun _ => 1, 3⟩
      ⟨[0, 0, 0, 0], 2, 2⟩ ⟨1, 100, 1000, 8, FrequencyScale.linear,
        BrightnessCurve.linear, false, 0⟩ (fun _ => false)).2 = true
    ∧ generatePCM ⟨fun _ => 0, fun _ => 1, fun _ _ => 1, fun _ => 1, 3⟩
      ⟨[0, 0, 0], 2, 2⟩ ⟨1, 100, 1000, 8, FrequencyScale.linear,
        BrightnessCurve.linear, false, 0⟩ (fun _ => false)
      = ([], Except.error GenError.invalidSize) := by
  constructor
  · exact (generatePCM_error_iff _ _ _).1.mpr ⟨by norm_num, by norm_num, by norm_num⟩
  · exact (generatePCM_error_iff _ _ _).2.1 (by norm_num)

/-! ## Claim C1: output length and the per-column partition of sample indices -/

lemma rowLoop_phases_length (R : RealFuns) (amps incs : List ℚ) :
    ∀ (ys : List ℕ) (sv : ℚ) (phases : List ℚ),
      ((rowLoop R amps incs ys sv phases).2).length = phases.length := by
  intro ys
  induction ys with
  | nil => intro sv phases; rfl
  | cons y rest ih =>
    intro sv phases
    simp only [rowLoop]
    rw [ih, List.length_set]

lemma sampleLoop_output_length (R : RealFuns) (effH : ℕ) (amps incs : List ℚ) :
    ∀ (samples : List ℕ) (phases output : List ℚ),
      ((sampleLoop R effH amps incs samples phases output).2).length
        = output.length := by
  intro samples
  induction samples with
  | nil => intro phases output; rfl
  | cons s rest ih =>
    intro phases output
    simp only [sampleLoop]
    rw [ih, List.length_set]

lemma runColumns_ok_output_length (ctx : SynthContext) :
    ∀ (cols : List ℕ) (st : SynthState) (log : List ℚ) (st' : SynthState),
      runColumns ctx cols st = (log, Except.ok st') →
      st'.output.length = st.output.length := by
  intro cols
  induction cols with
  | nil =>
    intro st log st' h
    simp only [runColumns, Prod.mk.injEq, Except.ok.injEq] at h
    rw [← h.2]
  | cons x rest ih =>
    intro st log st' h
    simp only [runColumns] at h
    split_ifs at h <;>
      first
        | (rw [ih _ _ _ h]; exact sampleLoop_output_length _ _ _ _ _ _ _)
        | simp [Prod.mk.injEq] at h

lemma normalizePCM_length (l : List ℚ) : (normalizePCM l).length = l.length := by
  simp only [normalizePCM]
  split_ifs <;> simp

lemma floor_div_toNat (a b : ℕ) : (⌊(a : ℚ) / (b : ℚ)⌋).toNat = a / b := by
  rw [Int.floor_toNat, Nat.floor_div_nat, Nat.floor_natCast]

lemma startSample_eq (T W x : ℕ) :
    startSample ((T : ℚ) / (W : ℚ)) x = x * T / W := by
  unfold startSample
  rw [show (x : ℚ) * ((T : ℚ) / (W : ℚ)) = ((x * T : ℕ) : ℚ) / (W : ℚ) by
    push_cast; ring]
  exact floor_div_toNat _ _

lemma colBound_mono (T W : ℕ) : Monotone (fun x => x * T / W) :=
  monotone_nat_of_le_succ fun n =>
    Nat.div_le_div_right (Nat.mul_le_mul_right T (by omega))

lemma colBound_le (T W x : ℕ) (hW : 0 < W) (hx : x ≤ W) : x * T / W ≤ T := by
  calc x * T / W ≤ W * T / W :=
        Nat.div_le_div_right (Nat.mul_le_mul_right T hx)
    _ = T := Nat.mul_div_cancel_left T hW

lemma endSample_eq (T W x : ℕ) (hW : 0 < W) (hx : x < W) :
    endSample ((T : ℚ) / (W : ℚ)) T x = (x + 1) * T / W := by
  unfold endSample
  rw [show ((x : ℚ) + 1) * ((T : ℚ) / (W : ℚ)) = (((x + 1) * T : ℕ) : ℚ) / (W : ℚ) by
    push_cast; ring]
  rw [floor_div_toNat, min_eq_left (colBound_le T W (x + 1) hW hx)]

lemma sum_range_sub_of_mono (f : ℕ → ℕ) (hf : Monotone f) :
    ∀ n, ∑ x in Finset.range n, (f (x + 1) - f x) = f n - f 0 := by
  intro n
  induction n with
  | zero => simp
  | succ m ih =>
    rw [Finset.sum_range_succ, ih]
    have h1 : f 0 ≤ f m := hf (Nat.zero_le m)
    have h2 : f m ≤ f (m + 1) := hf (by omega)
    omega

lemma exists_interval (f : ℕ → ℕ) :
    ∀ (W s : ℕ), f 0 ≤ s → s < f W → ∃ x, x < W ∧ f x ≤ s ∧ s < f (x + 1) := by
  intro W
  induction W with
  | zero => intro s h1 h2; omega
  | succ m ih =>
    intro s h1 h2
    by_cases hm : f m ≤ s
    · exact ⟨m, by omega, hm, h2⟩
    · obtain ⟨x, hx1, hx2, hx3⟩ := ih s h1 (by omega)
      exact ⟨x, by omega, hx2, hx3⟩

lemma unique_interval (f : ℕ → ℕ) (hf : Monotone f) (s x y : ℕ)
    (hx1 : f x ≤ s) (hx2 : s < f (x + 1)) (hy1 : f y ≤ s) (hy2 : s < f (y + 1)) :
    x = y := by
  by_contra hne
  rcases Nat.lt_or_ge x y with h | h
  · have : f (x + 1) ≤ f y := hf (by omega)
    omega
  · have : f (y + 1) ≤ f x := hf (by omega)
    omega

lemma step_pos (R : RealFuns) (w h : ℕ)
    (hsqrt : ∀ q : ℚ, 1 ≤ q → 1 ≤ R.sqrtF q) :
    0 < (calculateSubsamplingFactors R w h).1 := by
  simp only [calculateSubsamplingFactors]
  split_ifs with hth
  · norm_num
  · have h1 : (1 : ℚ) ≤ (w * h : ℕ) / (MAX_TARGET_PIXELS : ℕ) := by
      rw [le_div_iff₀ (by norm_num [MAX_TARGET_PIXELS])]
      have : MAX_TARGET_PIXELS < w * h := by
        simp only [SUBSAMPLE_THRESHOLD, MAX_TARGET_PIXELS] at hth ⊢
        omega
      calc (1 : ℚ) * (MAX_TARGET_PIXELS : ℕ) = (MAX_TARGET_PIXELS : ℕ) := one_mul _
        _ ≤ ((w * h : ℕ) : ℚ) := by exact_mod_cast this.le
    have h2 : 1 ≤ R.sqrtF ((w * h : ℕ) / (MAX_TARGET_PIXELS : ℕ)) := hsqrt _ h1
    have h3 : (0 : ℤ) < ⌈R.sqrtF ((w * h : ℕ) / (MAX_TARGET_PIXELS : ℕ))⌉ :=
      Int.ceil_pos.mpr (by linarith)
    omega

lemma effectiveDim_pos (d s : ℕ) (hd : 0 < d) (hs : 0 < s) :
    0 < effectiveDim d s := by
  unfold effectiveDim
  have hpos : (0 : ℚ) < (d : ℚ) / (s : ℚ) := by
    apply div_pos <;> exact_mod_cast (by assumption)
  have := Int.ceil_pos.mpr hpos
  omega

/-- `startSample` is monotone in the column index for any non-negative
stored `samplesPerColumn` value. -/
lemma startSample_mono (q : ℚ) (hq : 0 ≤ q) {x y : ℕ} (hxy : x ≤ y) :
    startSample q x ≤ startSample q y := by
  unfold startSample
  exact Int.toNat_le_toNat (Int.floor_le_floor
    (mul_le_mul_of_nonneg_right (by exact_mod_cast hxy) hq))

/-- A column's range ends no later than the next column's range begins, for
any stored `samplesPerColumn` value: consecutive ranges never overlap. -/
lemma endSample_le_startSample_succ (q : ℚ) (T x : ℕ) :
    endSample q T x ≤ startSample q (x + 1) := by
  unfold endSample startSample
  rw [show ((x : ℚ) + 1) = ((x + 1 : ℕ) : ℚ) by push_cast; ring]
  exact min_le_left _ _

/-- The column sizes telescope to `⌊W·q⌋` for any non-negative stored
`samplesPerColumn` value `q` whose last column boundary stays within the
buffer. -/
lemma sum_column_sizes (q : ℚ) (hq : 0 ≤ q) (T W : ℕ)
    (hWT : (⌊(W : ℚ) * q⌋).toNat ≤ T) :
    (∑ x in Finset.range W, (endSample q T x - startSample q x))
      = (⌊(W : ℚ) * q⌋).toNat := by
  have hmono : Monotone fun x : ℕ => startSample q x :=
    fun a b hab => startSample_mono q hq hab
  have hend : ∀ x, x < W → endSample q T x = startSample q (x + 1) := by
    intro x hx
    unfold endSample
    rw [show ((x : ℚ) + 1) = ((x + 1 : ℕ) : ℚ) by push_cast; ring]
    have hb : (⌊((x + 1 : ℕ) : ℚ) * q⌋).toNat ≤ T := by
      refine le_trans ?_ hWT
      exact Int.toNat_le_toNat (Int.floor_le_floor
        (mul_le_mul_of_nonneg_right (by exact_mod_cast (by omega : x + 1 ≤ W)) hq))
    rw [min_eq_left hb]
    rfl
  rw [Finset.sum_congr rfl fun x hx => by rw [hend x (Finset.mem_range.mp hx)]]
  rw [sum_range_sub_of_mono _ hmono W]
  simp [startSample]

/-- C1 counterexample: the program stores `samplesPerColumn` as the IEEE
double of `totalSamples / effectiveWidth`, not the exact rational.  Take a
41×1 image (below the subsampling threshold, so `effectiveWidth = 41`) with
sampleRate 22050 Hz and duration 1 s — sanitized-valid parameters with
`totalSamples = 22050`.  The double the program stores is
2365290867557151/2^42: the dyadic rational within half an ulp (2^-44 in the
binade [512, 1024)) of 22050/41, lying strictly BELOW the exact quotient.
With this stored value the 41 column sizes sum to 22049, not 22050 —
equivalently, output index 22049 is written by no column — so the original
claim's exact partition ("sizes sum exactly to totalSamples", "every output
index written by exactly one column") fails in the program.  (At this input
every per-column `Math.floor(x * samplesPerColumn)` agrees between the
double product and the exact product of the stored value, so the exact
products used here reproduce the program's indices.) -/
theorem samplesPerColumn_double_not_partition :
    |22050 / 41 - (2365290867557151 / 4398046511104 : ℚ)| ≤ 1 / 17592186044416
    ∧ (2365290867557151 / 4398046511104 : ℚ) < 22050 / 41
    ∧ (∑ x in Finset.range 41,
        (endSample (2365290867557151 / 4398046511104 : ℚ) 22050 x
          - startSample (2365290867557151 / 4398046511104 : ℚ) x)) = 22049
    ∧ (22049 : ℕ) ≠ 22050 := by
  have hWT : (⌊((41 : ℕ) : ℚ) * (2365290867557151 / 4398046511104 : ℚ)⌋).toNat
      ≤ 22050 := by
    norm_num
  have h := sum_column_sizes (2365290867557151 / 4398046511104 : ℚ) (by norm_num)
    22050 41 hWT
  refine ⟨by rw [abs_le]; constructor <;> norm_num, by norm_num, ?_, by norm_num⟩
  rw [h]
  norm_num
  rfl

/-- C1 (amended): for every accepted input (`pixels.length = width*height`,
positive dimensions) and valid parameters, the output PCM buffer has exactly
`⌊sampleRate*duration⌋` samples.  The per-column sample ranges
`[startSample x, endSample x)` are computed from the stored
`samplesPerColumn` value; for EVERY such stored value `q ≥ 0` — in
particular the rounded IEEE double the program stores — the ranges are
ordered left to right, stay within `[0, totalSamples]`, and are pairwise
disjoint, so every output index is written by AT MOST one column.  When the
stored value equals the exact rational quotient
`totalSamples/effectiveWidth`, the ranges moreover partition
`[0, totalSamples)`: their sizes sum exactly to `totalSamples` and every
output index is written by exactly one column.  (For the rounded double the
exact partition can fail — see the counterexample — which is all the
original claim loses.) -/
theorem generatePCM_partition (R : RealFuns) (input : AudioGenerationInput)
    (cfg : BasicModeConfig) (T W : ℕ)
    (hdata : input.data.length = input.width * input.height)
    (hw : 0 < input.width) (hh : 0 < input.height)
    (hsr : 0 ≤ cfg.sampleRate * cfg.duration)
    (hT : T = totalSamplesOf cfg)
    (hW : W = effectiveDim input.width
        (calculateSubsamplingFactors R input.width input.height).1)
    (hsqrt : ∀ q : ℚ, 1 ≤ q → 1 ≤ R.sqrtF q) :
    (T : ℤ) = ⌊cfg.sampleRate * cfg.duration⌋
    ∧ (generatePCM R input cfg (fun _ => false)).2.map List.length = Except.ok T
    ∧ 0 < W
    ∧ (∀ q : ℚ, 0 ≤ q → ∀ x y : ℕ, x ≤ y → startSample q x ≤ startSample q y)
    ∧ (∀ q : ℚ, ∀ x : ℕ, endSample q T x ≤ T)
    ∧ (∀ q : ℚ, 0 ≤ q → ∀ s x y : ℕ, x < y →
        startSample q x ≤ s → s < endSample q T x →
        startSample q y ≤ s → s < endSample q T y → False)
    ∧ (∑ x in Finset.range W,
        (endSample ((T : ℚ) / (W : ℚ)) T x - startSample ((T : ℚ) / (W : ℚ)) x))
        = T
    ∧ (∀ s, s < T →
        ∃! x, x < W ∧ startSample ((T : ℚ) / (W : ℚ)) x ≤ s
          ∧ s < endSample ((T : ℚ) / (W : ℚ)) T x) := by
  have hW0 : 0 < W := by
    rw [hW]
    exact effectiveDim_pos _ _ hw (step_pos R _ _ hsqrt)
  have hfW : W * T / W = T := Nat.mul_div_cancel_left T hW0
  refine ⟨?_, ?_, hW0,
    fun q hq x y hxy => startSample_mono q hq hxy,
    fun q x => min_le_right _ _,
    fun q hq s x y hxy h1 h2 h3 h4 => by
      have h5 : endSample q T x ≤ startSample q (x + 1) :=
        endSample_le_startSample_succ q T x
      have h6 : startSample q (x + 1) ≤ startSample q y :=
        startSample_mono q hq (by omega)
      omega,
    ?_, ?_⟩
  · rw [hT]
    unfold totalSamplesOf
    exact Int.toNat_of_nonneg (Int.floor_nonneg.mpr hsr)
  · simp only [generatePCM, if_neg (not_not_intro hdata),
      if_neg (show ¬ (input.width = 0 ∨ input.height = 0) by omega)]
    split
    · next log e heq =>
      exact absurd heq (fun h2 => runColumns_res_ok _ _ _ _ _ (fun _ => rfl) h2)
    · next log st heq =>
      simp only [Except.map, normalizePCM_length]
      rw [runColumns_ok_output_length _ _ _ _ _ heq]
      simp only [List.length_replicate]
      rw [hT]
  · rw [Finset.sum_congr rfl fun x hx => by
      rw [startSample_eq, endSample_eq T W x hW0 (Finset.mem_range.mp hx)]]
    rw [sum_range_sub_of_mono _ (colBound_mono T W) W]
    simp [hfW]
  · intro s hs
    obtain ⟨x, hx1, hx2, hx3⟩ := exists_interval (fun x => x * T / W) W s
      (by simp) (by simpa [hfW] using hs)
    refine ⟨x, ⟨hx1, ?_, ?_⟩, ?_⟩
    · rw [startSample_eq]; exact hx2
    · rw [endSample_eq T W x hW0 hx1]; exact hx3
    · rintro y ⟨hy1, hy2, hy3⟩
      rw [startSample_eq] at hy2
      rw [endSample_eq T W y hW0 hy1] at hy3
      exact unique_interval (fun x => x * T / W) (colBound_mono T W) s y x
        hy2 hy3 hx2 hx3

/-- C1 witness: 2×2 image, 8 total samples, 2 columns. -/
theorem generatePCM_partition_witness :
    (generatePCM ⟨fun _ => 0, fun _ => 1, fun _ _ => 1, fun _ => 1, 3⟩
      ⟨[0, 0, 0, 0], 2, 2⟩ ⟨1, 100, 1000, 8, FrequencyScale.linear,
        BrightnessCurve.linear, false, 0⟩ (fun _ => false)).2.map List.length
      = Except.ok 8 := by
  have h := generatePCM_partition ⟨fun _ => 0, fun _ => 1, fun _ _ => 1, fun _ => 1, 3⟩
    ⟨[0, 0, 0, 0], 2, 2⟩ ⟨1, 100, 1000, 8, FrequencyScale.linear,
        BrightnessCurve.linear, false, 0⟩ 8 2 (by norm_num) (by norm_num)
    (by norm_num) (by norm_num)
    (by norm_num [totalSamplesOf]; rfl)
    (by norm_num [effectiveDim, calculateSubsamplingFactors, SUBSAMPLE_THRESHOLD]; rfl)
    (fun _ _ => le_refl 1)
  exact h.2.1

/-! ## Claim C9: subsampled pixel reads stay in bounds -/

lemma steps_eq (R : RealFuns) (w h : ℕ) :
    (calculateSubsamplingFactors R w h).2 = (calculateSubsamplingFactors R w h).1 := by
  simp only [calculateSubsamplingFactors]
  split_ifs <;> rfl

lemma mul_lt_of_lt_effectiveDim (d s x : ℕ) (hs : 0 < s)
    (hx : x < effectiveDim d s) : x * s < d := by
  unfold effectiveDim at hx
  have h1 : (x : ℤ) < ⌈(d : ℚ) / (s : ℚ)⌉ := by omega
  have h2 : (x : ℚ) < (d : ℚ) / (s : ℚ) := by exact_mod_cast Int.lt_ceil.mp h1
  have h3 : (x : ℚ) * (s : ℚ) < (d : ℚ) :=
    (lt_div_iff₀ (by exact_mod_cast hs)).mp h2
  exact_mod_cast h3

/-- C9: for every input that passes `generatePCM`'s validation, every pixel
read `data[srcY*width + srcX]` with `srcX = x*stepX` for
`x < ceil(width/stepX)` and `srcY = y*stepY` for `y < ceil(height/stepY)`,
with the steps from `calculateSubsamplingFactors`, is in bounds:
`srcX < width`, `srcY < height` and `srcY*width + srcX < width*height` — in
both the subsampled and unsubsampled cases. -/
theorem generatePCM_pixel_reads_in_bounds (R : RealFuns) (width height : ℕ)
    (hw : 0 < width) (hh : 0 < height)
    (hsqrt : ∀ q : ℚ, 1 ≤ q → 1 ≤ R.sqrtF q) :
    ∀ x y : ℕ,
      x < effectiveDim width (calculateSubsamplingFactors R width height).1 →
      y < effectiveDim height (calculateSubsamplingFactors R width height).2 →
      x * (calculateSubsamplingFactors R width height).1 < width
      ∧ y * (calculateSubsamplingFactors R width height).2 < height
      ∧ y * (calculateSubsamplingFactors R width height).2 * width
          + x * (calculateSubsamplingFactors R width height).1
        < width * height := by
  intro x y hx hy
  have hsx : 0 < (calculateSubsamplingFactors R width height).1 :=
    step_pos R _ _ hsqrt
  have hsy : 0 < (calculateSubsamplingFactors R width height).2 := by
    rw [steps_eq]; exact hsx
  have h1 : x * (calculateSubsamplingFactors R width height).1 < width :=
    mul_lt_of_lt_effectiveDim _ _ _ hsx hx
  have h2 : y * (calculateSubsamplingFactors R width height).2 < height :=
    mul_lt_of_lt_effectiveDim _ _ _ hsy hy
  refine ⟨h1, h2, ?_⟩
  calc y * (calculateSubsamplingFactors R width height).2 * width
        + x * (calculateSubsamplingFactors R width height).1
      < (y * (calculateSubsamplingFactors R width height).2 + 1) * width := by
        rw [Nat.add_mul, Nat.one_mul]; omega
    _ ≤ height * width := Nat.mul_le_mul_right width (by omega)
    _ = width * height := Nat.mul_comm _ _

/-- C9 witness: 2×2 image, unsubsampled, both indices at their maximum. -/
theorem generatePCM_pixel_reads_in_bounds_witness :
    1 * (calculateSubsamplingFactors
        ⟨fun _ => 0, fun _ => 1, fun _ _ => 1, fun _ => 1, 3⟩ 2 2).2 * 2
      + 1 * (calculateSubsamplingFactors
        ⟨fun _ => 0, fun _ => 1, fun _ _ => 1, fun _ => 1, 3⟩ 2 2).1 < 2 * 2 := by
  have h := generatePCM_pixel_reads_in_bounds
    ⟨fun _ => 0, fun _ => 1, fun _ _ => 1, fun _ => 1, 3⟩ 2 2
    (by norm_num) (by norm_num) (fun _ _ => le_refl 1) 1 1
    (by norm_num [effectiveDim, calculateSubsamplingFactors, SUBSAMPLE_THRESHOLD])
    (by norm_num [effectiveDim, calculateSubsamplingFactors, SUBSAMPLE_THRESHOLD])
  exact h.2.2

end SpectroTrace
